import Mathlib

set_option linter.unusedVariables false

/-!
Shallow embedding of the document analysis engine of `src/server/src/server.ts`
(a language server for a small procedural language).  Pure functions below
mirror the source functions; the mutable scan variables of the source
(`functionName`, `functionParams`, `isInFunction`) become an explicit
accumulator threaded through a fold, and the per-document settings cache
becomes explicit state passing.
-/

namespace Codelang

/-- Word characters of the JavaScript regex metacharacter b (word boundary):
letters, digits and underscore. -/
def isWordChar (c : Char) : Bool :=
  (('a' ≤ c) && (c ≤ 'z')) || (('A' ≤ c) && (c ≤ 'Z')) ||
    (('0' ≤ c) && (c ≤ '9')) || (c = '_')

/-- Uppercase ASCII letter, the character class of the ALL-CAPS pattern. -/
def isUpperChar (c : Char) : Bool :=
  ('A' ≤ c) && (c ≤ 'Z')

/-- Whitespace characters matched by the JavaScript regex class s and removed
by String.prototype.trim. -/
def isJsSpace (c : Char) : Bool :=
  (c = ' ') || (c = '\t') || (c = '\n') || (c = '\x0b') || (c = '\x0c') ||
    (c = '\r') || (c = '\u00A0') || (c = '\u2028') || (c = '\u2029') ||
    (c = '\uFEFF')

/-- Characters matched by the JavaScript regex dot: everything except line
terminators. -/
def isDotChar (c : Char) : Bool :=
  !((c = '\n') || (c = '\r') || (c = '\u2028') || (c = '\u2029'))

/-- First character of a regex identifier [a-zA-Z_]. -/
def isIdentStart (c : Char) : Bool :=
  (('a' ≤ c) && (c ≤ 'z')) || (('A' ≤ c) && (c ≤ 'Z')) || (c = '_')

/-- Subsequent character of a regex identifier [a-zA-Z0-9_]. -/
def isIdentChar (c : Char) : Bool :=
  isIdentStart c || (('0' ≤ c) && (c ≤ '9'))

/-- JavaScript String.prototype.split with a single-character separator:
splitting the empty string yields one empty field, and every separator
occurrence opens a new field. -/
def splitOnChar (sep : Char) : List Char → List (List Char)
  | [] => [[]]
  | c :: rest =>
    let r := splitOnChar sep rest
    if c = sep then [] :: r
    else
      match r with
      | h :: t => (c :: h) :: t
      | [] => [[c]]

/-- The line scanner of the source: `document.getText().split('\n')`. -/
def splitLines (text : String) : List String :=
  (splitOnChar '\n' text.data).map String.mk

/-- JavaScript String.prototype.trim. -/
def jsTrim (s : String) : String :=
  String.mk (((s.data.dropWhile isJsSpace).reverse.dropWhile isJsSpace).reverse)

/-! The ALL-CAPS diagnostic pattern of `validateTextDocument`, a global regex
matching word-bounded runs of two or more uppercase letters.  Such a run
matches exactly when it is maximal (bounded by non-word characters or the ends
of the text), so successive `exec` calls enumerate, left to right, the maximal
uppercase runs of length at least two with non-word neighbours. -/

/-- Worker for `allCapsMatches`: walks the text one character at a time
carrying the current index, whether the previous character was a word
character, and the in-progress uppercase run (start index and reversed
characters), emitting each completed word-bounded run of length two or more
with its start offset. -/
def capsScanAux : List Char → Nat → Bool → Option (Nat × List Char) →
    List (Nat × String)
  | [], _, _, run =>
    match run with
    | some (s, acc) => if 2 ≤ acc.length then [(s, String.mk acc.reverse)] else []
    | none => []
  | c :: rest, i, prevWord, run =>
    match run with
    | some (s, acc) =>
      if isUpperChar c then capsScanAux rest (i + 1) true (some (s, c :: acc))
      else
        let tail := capsScanAux rest (i + 1) (isWordChar c) none
        if 2 ≤ acc.length then
          if isWordChar c then tail else (s, String.mk acc.reverse) :: tail
        else tail
    | none =>
      if !prevWord && isUpperChar c then
        capsScanAux rest (i + 1) true (some (i, [c]))
      else
        capsScanAux rest (i + 1) (isWordChar c) none

/-- All matches of the pattern of uppercase words of length two or more in the
document text, as (start offset, matched token) pairs in text order. -/
def allCapsMatches (text : String) : List (Nat × String) :=
  capsScanAux text.data 0 false none

/-! Positions and diagnostic data, mirroring the LSP structures the source
builds.  `positionAt` mirrors the text document helper used by the source: a
line starts after each line break, where a line break is a carriage return and
line feed pair, a lone carriage return, or a lone line feed. -/

/-- A zero-based line and character position in a document. -/
structure Position where
  line : Nat
  character : Nat
deriving DecidableEq, Repr

/-- A range between two positions. -/
structure Range where
  start : Position
  stop : Position
deriving DecidableEq, Repr

/-- A document location: URI plus range. -/
structure Location where
  uri : String
  range : Range
deriving DecidableEq, Repr

/-- Diagnostic severities of the LSP protocol. -/
inductive DiagnosticSeverity where
  | Error
  | Warning
  | Information
  | Hint
deriving DecidableEq, Repr

/-- A related-information note attached to a diagnostic. -/
structure DiagnosticRelatedInformation where
  location : Location
  message : String
deriving DecidableEq, Repr

/-- A diagnostic as built by `validateTextDocument`. -/
structure Diagnostic where
  severity : DiagnosticSeverity
  range : Range
  message : String
  source : String
  relatedInformation : Option (List DiagnosticRelatedInformation) := none
deriving DecidableEq, Repr

/-- Offsets (zero-based) at which a new line starts, excluding the start of the
document; a carriage return and line feed pair counts as one line break. -/
def lineStarts : List Char → Nat → List Nat
  | [], _ => []
  | '\r' :: '\n' :: rest, i => (i + 2) :: lineStarts rest (i + 2)
  | '\r' :: rest, i => (i + 1) :: lineStarts rest (i + 1)
  | '\n' :: rest, i => (i + 1) :: lineStarts rest (i + 1)
  | _ :: rest, i => lineStarts rest (i + 1)

/-- The text document positionAt helper: clamps the offset to the text length,
finds the last line start at or before the offset, and returns the line index
with the remaining character offset. -/
def positionAt (text : String) (offset : Nat) : Position :=
  let o := min offset text.data.length
  let starts := 0 :: lineStarts text.data 0
  let before := starts.filter (fun s => s ≤ o)
  ⟨before.length - 1, o - (before.getLast?.getD 0)⟩

/-- The diagnostic object `validateTextDocument` builds for one ALL-CAPS match
(start offset and token): Warning severity, the matched range, the message
naming the token, source "ex", and, exactly when the client declared the
related-information capability, two fixed advisory notes at the same range. -/
def mkDiagnostic (uri : String) (hasRelatedInfo : Bool) (text : String)
    (m : Nat × String) : Diagnostic :=
  let range : Range := ⟨positionAt text m.1, positionAt text (m.1 + m.2.length)⟩
  let base : Diagnostic :=
    { severity := DiagnosticSeverity.Warning
      range := range
      message := m.2 ++ " is all uppercase."
      source := "ex"
      relatedInformation := none }
  if hasRelatedInfo then
    { base with
        relatedInformation := some
          [ { location := { uri := uri, range := range }, message := "Spelling matters" },
            { location := { uri := uri, range := range }, message := "Particularly for names" } ] }
  else base

/-- The while loop of `validateTextDocument`: consumes the pattern matches
while the problem count is below the cap.  Each iteration builds a diagnostic
object, but — exactly as in the source, where no push into the `diagnostics`
array appears — the accumulator is returned unchanged. -/
def validateLoop (uri : String) (hasRelatedInfo : Bool) (maxProblems : Nat)
    (text : String) : List (Nat × String) → Nat → List Diagnostic → List Diagnostic
  | [], _, diagnostics => diagnostics
  | m :: rest, problems, diagnostics =>
    if problems < maxProblems then
      let diagnostic := mkDiagnostic uri hasRelatedInfo text m
      validateLoop uri hasRelatedInfo maxProblems text rest (problems + 1) diagnostics
    else diagnostics

/-- The function `validateTextDocument` of the source: scans the text for
ALL-CAPS tokens, builds one diagnostic per match up to `maxNumberOfProblems`,
and returns the `diagnostics` array — which the loop never appended to. -/
def validateTextDocument (uri : String) (hasRelatedInfo : Bool)
    (maxProblems : Nat) (text : String) : List Diagnostic :=
  validateLoop uri hasRelatedInfo maxProblems text (allCapsMatches text) 0 []

/-- The diagnostics the validator loop constructs, in order: one per ALL-CAPS
match while the problem count is below the cap.  The source builds each of
these objects inside the loop and discards it. -/
def constructedDiagnostics (uri : String) (hasRelatedInfo : Bool)
    (maxProblems : Nat) (text : String) : List Diagnostic :=
  ((allCapsMatches text).take maxProblems).map (mkDiagnostic uri hasRelatedInfo text)

/-! Matching primitives for the extraction regexes of the source.  Each regex
is embedded as a hand-rolled matcher whose backtracking behaviour coincides
with the JavaScript engine on the concrete pattern: every greedy repetition in
these patterns is followed by a token drawn from a disjoint character set, so
the maximal munch needs no give-back, and the one genuinely backtracking point
(the optional return-type alternation of the function header, and the final
closing parenthesis after the greedy dot) is handled explicitly. -/

/-- Consume a literal pattern case-insensitively (the header regex carries the
i flag); returns the rest of the input on success. -/
def matchCI : List Char → List Char → Option (List Char)
  | [], cs => some cs
  | _ :: _, [] => none
  | p :: ps, c :: cs => if p.toLower = c.toLower then matchCI ps cs else none

/-- Consume a literal pattern case-sensitively; returns the rest of the input
on success. -/
def matchExact : List Char → List Char → Option (List Char)
  | [], cs => some cs
  | _ :: _, [] => none
  | p :: ps, c :: cs => if p = c then matchExact ps cs else none

/-- Consume a regex identifier [a-zA-Z_][a-zA-Z0-9_]* greedily; returns the
identifier characters and the rest of the input. -/
def takeIdent (cs : List Char) : Option (List Char × List Char) :=
  match cs with
  | [] => none
  | c :: rest =>
    if isIdentStart c then
      some (c :: rest.takeWhile isIdentChar, rest.dropWhile isIdentChar)
    else none

/-- The characters strictly before the last closing parenthesis of the list,
or none when the list has no closing parenthesis.  This is where the greedy
dot of the header pattern backtracks to before the final parenthesis. -/
def splitAtLastParen : List Char → Option (List Char)
  | [] => none
  | c :: rest =>
    match splitAtLastParen rest with
    | some p => some (c :: p)
    | none => if c = ')' then some [] else none

/-- One alternative of the function header regex after FN and the mandatory
whitespace: consume the given return-type literal (possibly empty)
case-insensitively, optional whitespace, an identifier, optional whitespace,
an opening parenthesis, then the greedy dot up to the last closing parenthesis
of the line.  Returns the captured name and raw parameter text. -/
def tryHeaderWithType (alt : List Char) (cs : List Char) :
    Option (String × String) :=
  match matchCI alt cs with
  | none => none
  | some r1 =>
    match takeIdent (r1.dropWhile isJsSpace) with
    | none => none
    | some (name, r2) =>
      match r2.dropWhile isJsSpace with
      | '(' :: r3 =>
        match splitAtLastParen (r3.takeWhile isDotChar) with
        | some inner => some (String.mk name, String.mk inner)
        | none => none
      | _ => none

/-- Try the return-type alternatives of the header regex in source order; the
empty alternative embeds the case where the optional type group matches
nothing. -/
def tryHeaderAlts : List (List Char) → List Char → Option (String × String)
  | [], _ => none
  | alt :: alts, cs =>
    match tryHeaderWithType alt cs with
    | some r => some r
    | none => tryHeaderAlts alts cs

/-- Attempt the function header regex at the start of the given suffix (the
caller has already checked the word boundary): FN case-insensitively, at least
one whitespace character, then the optional return type, identifier and
parenthesized parameter text. -/
def tryHeaderAt (cs : List Char) : Option (String × String) :=
  match matchCI ['F', 'N'] cs with
  | none => none
  | some r1 =>
    if (r1.takeWhile isJsSpace).length = 0 then none
    else
      tryHeaderAlts
        ["STRING".data, "INT".data, "FLOAT".data, "CHAR".data, "BOOL".data, []]
        (r1.dropWhile isJsSpace)

/-- Leftmost-first search of the header pattern over a line, carrying whether
the previous character was a word character for the boundary check before
FN. -/
def headerSearch : Bool → List Char → Option (String × String)
  | _, [] => none
  | prevWord, c :: rest =>
    match (if prevWord then none else tryHeaderAt (c :: rest)) with
    | some r => some r
    | none => headerSearch (isWordChar c) rest

/-- First match of the function header regex on a line: the captured function
name and raw parameter-list text. -/
def headerMatch (line : String) : Option (String × String) :=
  headerSearch false line.data

/-- The header parameter handling of the source: split the captured text on
commas and trim each field. -/
def commaSplitTrim (ps : String) : List String :=
  ((splitOnChar ',' ps.data).map String.mk).map jsTrim

/-- Ordered, case-sensitive alternation over a list of literal alternatives,
as a regex alternation of literals behaves: the first alternative that is a
prefix of the input wins. -/
def tryAlts (alts : List String) (cs : List Char) : Option (String × List Char) :=
  match alts with
  | [] => none
  | a :: rest =>
    match matchExact a.data cs with
    | some r => some (a, r)
    | none => tryAlts rest cs

/-- The typed-parameter alternation (STRING|INT|FLOAT|CHAR|BOOL) of the body
parameter regex, case-sensitively, in source order. -/
def tryParamType (cs : List Char) : Option (String × List Char) :=
  tryAlts ["STRING", "INT", "FLOAT", "CHAR", "BOOL"] cs

/-- Attempt the body parameter pattern identifier, optional whitespace, colon,
optional whitespace, type at the start of the suffix (the caller has checked
the word boundary).  Returns (name, type, rest after the match). -/
def tryParamAt (cs : List Char) : Option (String × String × List Char) :=
  match takeIdent cs with
  | none => none
  | some (name, r1) =>
    match r1.dropWhile isJsSpace with
    | ':' :: r2 =>
      match tryParamType (r2.dropWhile isJsSpace) with
      | none => none
      | some (ty, r3) => some (String.mk name, ty, r3)
    | _ => none

/-- Successive matches of the global body parameter regex over a line; each
search resumes right after the previous match.  The result entries are the
strings the source pushes: the type, a space, then the parameter name.  The
fuel argument bounds the walk by the line length; every step consumes at least
one character. -/
def paramScanFuel : Nat → Bool → List Char → List String
  | 0, _, _ => []
  | _ + 1, _, [] => []
  | fuel + 1, prevWord, c :: rest =>
    match (if prevWord then none else tryParamAt (c :: rest)) with
    | some (name, ty, after) =>
      (ty ++ " " ++ name) :: paramScanFuel fuel true after
    | none => paramScanFuel fuel (isWordChar c) rest

/-- All `"TYPE name"` entries the body parameter regex yields on one line. -/
def lineParams (line : String) : List String :=
  paramScanFuel line.data.length false line.data

/-- The negative lookbehind of the variable regex, checked against the
reversed prefix before the match position: it rejects the position exactly
when it is preceded by at least one whitespace character, immediately before
which stand F and N with a word boundary before the F. -/
def fnLookbehind (seenRev : List Char) : Bool :=
  let ws := seenRev.takeWhile isJsSpace
  if ws.length = 0 then false
  else
    match seenRev.dropWhile isJsSpace with
    | 'N' :: 'F' :: before =>
      match before with
      | [] => true
      | b :: _ => !isWordChar b
    | _ => false

/-- The variable type alternation (STRING|INT|FLOAT|CHAR) of the variable
regex — BOOL is absent here — case-sensitively, in source order. -/
def tryVarType (cs : List Char) : Option (String × List Char) :=
  tryAlts ["STRING", "INT", "FLOAT", "CHAR"] cs

/-- Attempt the variable pattern type, mandatory whitespace, identifier at the
start of the suffix.  The trailing word boundary of the regex is automatic
because the identifier is taken maximally.  Returns (type, name, rest after
the match, consumed characters). -/
def tryVarAt (cs : List Char) : Option (String × String × List Char × List Char) :=
  match tryVarType cs with
  | none => none
  | some (ty, r1) =>
    let ws := r1.takeWhile isJsSpace
    if ws.length = 0 then none
    else
      match takeIdent (r1.dropWhile isJsSpace) with
      | none => none
      | some (name, r2) =>
        some (ty, String.mk name, r2, ty.data ++ ws ++ name)

/-- Successive matches of the global variable regex over a line, carrying the
reversed prefix already passed for the lookbehind check.  Yields (name, type)
pairs in match order.  The fuel argument bounds the walk by the line length. -/
def varScanFuel : Nat → List Char → List Char → List (String × String)
  | 0, _, _ => []
  | _ + 1, _, [] => []
  | fuel + 1, seenRev, c :: rest =>
    match (if fnLookbehind seenRev then none else tryVarAt (c :: rest)) with
    | some (ty, name, after, consumed) =>
      (name, ty) :: varScanFuel fuel (consumed.reverse ++ seenRev) after
    | none => varScanFuel fuel (c :: seenRev) rest

/-! The two symbol extractors and the completion composer. -/

/-- A function declaration extracted by `extractFunctionDeclarations`: name
and accumulated parameter entries. -/
structure FunctionSymbol where
  name : String
  params : List String
deriving DecidableEq, Repr

/-- A variable declaration extracted by `extractVariableDeclarations`: name
and its type, which the source stores in the containerName field. -/
structure VariableSymbol where
  name : String
  containerName : String
deriving DecidableEq, Repr

/-- The scan accumulator of `extractFunctionDeclarations`, mirroring the
mutable variables of the source; `isInFunction = false` is the Outside state
of the scanner and `isInFunction = true` the InsideFunction state. -/
structure FnScanAcc where
  functionDeclarations : List FunctionSymbol
  functionName : String
  functionParams : List String
  isInFunction : Bool
deriving DecidableEq, Repr

/-- One line of the function declaration scan.  Inside a function, a line
whose trimmed content is exactly END FN emits the accumulated symbol and
resets the state; any other line appends its body parameter matches.  Outside,
a header match records the name, the comma-split parameter text, and enters
the function. -/
def fnStep (acc : FnScanAcc) (line : String) : FnScanAcc :=
  if acc.isInFunction then
    if jsTrim line = "END FN" then
      { acc with
          functionDeclarations :=
            acc.functionDeclarations ++ [⟨acc.functionName, acc.functionParams⟩]
          functionName := ""
          functionParams := []
          isInFunction := false }
    else
      { acc with functionParams := acc.functionParams ++ lineParams line }
  else
    match headerMatch line with
    | some (name, ps) =>
      { acc with
          functionName := name
          functionParams := commaSplitTrim ps
          isInFunction := true }
    | none => acc

/-- The function `extractFunctionDeclarations` of the source: fold the
two-state line scan over the document lines and return the emitted symbols;
an open function at the end of the document is dropped with the accumulator. -/
def extractFunctionDeclarations (text : String) : List FunctionSymbol :=
  ((splitLines text).foldl fnStep ⟨[], "", [], false⟩).functionDeclarations

/-- All variable matches of one line, in match order. -/
def lineVars (line : String) : List VariableSymbol :=
  (varScanFuel line.data.length [] line.data).map fun p => ⟨p.1, p.2⟩

/-- The function `extractVariableDeclarations` of the source: concatenate the
per-line variable matches over all document lines. -/
def extractVariableDeclarations (text : String) : List VariableSymbol :=
  (splitLines text).foldl (fun acc line => acc ++ lineVars line) []

/-! The completion composer of the onCompletion handler. -/

/-- Completion item kinds used by the source. -/
inductive CompletionItemKind where
  | Keyword
  | Variable
  | Function
deriving DecidableEq, Repr

/-- A completion item: label, kind and optional detail text. -/
structure CompletionItem where
  label : String
  kind : CompletionItemKind
  detail : Option String := none
deriving DecidableEq, Repr

/-- The fixed completion items the handler starts from: the language keywords,
the two quoted boolean literals, and the one builtin function. -/
def fixedCompletionItems : List CompletionItem :=
  [ ⟨"BEGIN", CompletionItemKind.Keyword, none⟩,
    ⟨"END", CompletionItemKind.Keyword, none⟩,
    ⟨"IF", CompletionItemKind.Keyword, none⟩,
    ⟨"ELSE", CompletionItemKind.Keyword, none⟩,
    ⟨"WHILE", CompletionItemKind.Keyword, none⟩,
    ⟨"FN", CompletionItemKind.Keyword, none⟩,
    ⟨"STRING", CompletionItemKind.Keyword, none⟩,
    ⟨"CHAR", CompletionItemKind.Keyword, none⟩,
    ⟨"INT", CompletionItemKind.Keyword, none⟩,
    ⟨"FLOAT", CompletionItemKind.Keyword, none⟩,
    ⟨"BOOL", CompletionItemKind.Keyword, none⟩,
    ⟨"\"TRUE\"", CompletionItemKind.Keyword, none⟩,
    ⟨"\"FALSE\"", CompletionItemKind.Keyword, none⟩,
    ⟨"RETURN", CompletionItemKind.Keyword, none⟩,
    ⟨"scanString", CompletionItemKind.Function, none⟩ ]

/-- The onCompletion handler body for a present document: the fixed items,
then one Variable item per extracted variable (detail carries its type), then
one Function item per extracted function, pushed in extraction order. -/
def computeCompletions (text : String) : List CompletionItem :=
  let variableDeclarations := extractVariableDeclarations text
  let functionDeclarations := extractFunctionDeclarations text
  let items0 := fixedCompletionItems
  let items1 := variableDeclarations.foldl
    (fun acc v => acc ++ [⟨v.name, CompletionItemKind.Variable, some v.containerName⟩]) items0
  let items2 := functionDeclarations.foldl
    (fun acc f => acc ++ [⟨f.name, CompletionItemKind.Function, none⟩]) items1
  items2

/-! The settings lookup with its per-document cache, and the pull-diagnostics
handler over the document store. -/

/-- The settings record of the source. -/
structure ExampleSettings where
  maxNumberOfProblems : Nat
deriving DecidableEq, Repr

/-- The function getDocumentSettings of the source, with the mutable cache
entry for the requested document made explicit: without the configuration
capability the global settings are returned and the cache is untouched;
otherwise a cached value is returned as is, and a miss resolves the workspace
configuration and stores it. -/
def getDocumentSettings (hasConfigCap : Bool) (globalSettings : ExampleSettings)
    (workspaceConfig : ExampleSettings) (cache : Option ExampleSettings) :
    ExampleSettings × Option ExampleSettings :=
  if !hasConfigCap then (globalSettings, cache)
  else
    match cache with
    | some s => (s, some s)
    | none => (workspaceConfig, some workspaceConfig)

/-- A validation run as performed by the handlers: resolve the settings
through the cache, then validate the text with the resolved cap; returns the
diagnostics together with the cache entry after the call. -/
def validateDocumentWithCache (uri : String) (hasConfigCap hasRelatedInfo : Bool)
    (globalSettings workspaceConfig : ExampleSettings)
    (cache : Option ExampleSettings) (text : String) :
    List Diagnostic × Option ExampleSettings :=
  let sc := getDocumentSettings hasConfigCap globalSettings workspaceConfig cache
  (validateTextDocument uri hasRelatedInfo sc.1.maxNumberOfProblems text, sc.2)

/-- Kinds of document diagnostic reports. -/
inductive DocumentDiagnosticReportKind where
  | Full
  | Unchanged
deriving DecidableEq, Repr

/-- A document diagnostic report as returned by the pull handler. -/
structure DocumentDiagnosticReport where
  kind : DocumentDiagnosticReportKind
  items : List Diagnostic
deriving DecidableEq, Repr

/-- The document store lookup documents.get: first entry with the requested
URI. -/
def documentsGet (store : List (String × String)) (uri : String) : Option String :=
  match store with
  | [] => none
  | (u, t) :: rest => if u = uri then some t else documentsGet rest uri

/-- The pull-diagnostics handler: a known document is validated and reported
as a full report; an unknown URI yields a full report with no items rather
than an error. -/
def onDiagnostics (store : List (String × String)) (uri : String)
    (hasConfigCap hasRelatedInfo : Bool)
    (globalSettings workspaceConfig : ExampleSettings)
    (cache : Option ExampleSettings) : DocumentDiagnosticReport :=
  match documentsGet store uri with
  | some text =>
    ⟨DocumentDiagnosticReportKind.Full,
      (validateDocumentWithCache uri hasConfigCap hasRelatedInfo globalSettings
        workspaceConfig cache text).1⟩
  | none => ⟨DocumentDiagnosticReportKind.Full, []⟩

/-! Helper lemmas about the folds and matchers above. -/

/-- Pushing mapped elements one at a time onto an accumulator list is the same
as appending the mapped list. -/
theorem foldl_push_eq {α β : Type} (f : α → β) (l : List α) (init : List β) :
    l.foldl (fun acc x => acc ++ [f x]) init = init ++ l.map f := by
  induction l generalizing init with
  | nil => simp
  | cons a t ih => simp [List.foldl_cons, ih]

/-- The completion handler result decomposed: the fixed items, the mapped
variable items, the mapped function items. -/
theorem computeCompletions_eq (text : String) :
    computeCompletions text =
      fixedCompletionItems
        ++ (extractVariableDeclarations text).map
            (fun v => ⟨v.name, CompletionItemKind.Variable, some v.containerName⟩)
        ++ (extractFunctionDeclarations text).map
            (fun f => ⟨f.name, CompletionItemKind.Function, none⟩) := by
  unfold computeCompletions
  simp only [foldl_push_eq, List.append_assoc]

/-- Lines with no header match leave the Outside state untouched. -/
theorem foldl_fnStep_outside (pre : List String)
    (hpre : ∀ l ∈ pre, headerMatch l = none) (ds : List FunctionSymbol)
    (n : String) (ps : List String) :
    List.foldl fnStep ⟨ds, n, ps, false⟩ pre = ⟨ds, n, ps, false⟩ := by
  induction pre with
  | nil => rfl
  | cons a t ih =>
    have ha := hpre a (List.mem_cons_self a t)
    have hstep : fnStep ⟨ds, n, ps, false⟩ a = ⟨ds, n, ps, false⟩ := by
      simp [fnStep, ha]
    rw [List.foldl_cons, hstep]
    exact ih fun l hl => hpre l (List.mem_cons_of_mem a hl)

/-- Inside a function, lines that do not trim to END FN only append body
parameter matches to the accumulator. -/
theorem foldl_fnStep_inside (body : List String)
    (hbody : ∀ l ∈ body, jsTrim l ≠ "END FN") (ds : List FunctionSymbol)
    (n : String) (ps : List String) :
    ∃ extra, List.foldl fnStep ⟨ds, n, ps, true⟩ body = ⟨ds, n, ps ++ extra, true⟩ := by
  induction body generalizing ps with
  | nil => exact ⟨[], by simp⟩
  | cons a t ih =>
    have ha := hbody a (List.mem_cons_self a t)
    have hstep : fnStep ⟨ds, n, ps, true⟩ a = ⟨ds, n, ps ++ lineParams a, true⟩ := by
      simp [fnStep, ha]
    obtain ⟨extra, hex⟩ :=
      ih (fun l hl => hbody l (List.mem_cons_of_mem a hl)) (ps ++ lineParams a)
    exact ⟨lineParams a ++ extra, by rw [List.foldl_cons, hstep, hex, List.append_assoc]⟩

/-- One scan step never removes an emitted function symbol. -/
theorem fnStep_decls_mono (s : FnScanAcc) (l : String) (d : FunctionSymbol)
    (h : d ∈ s.functionDeclarations) : d ∈ (fnStep s l).functionDeclarations := by
  unfold fnStep
  by_cases hin : s.isInFunction = true
  · by_cases he : jsTrim l = "END FN" <;> simp [hin, he, h]
  · rw [Bool.not_eq_true] at hin
    cases hm : headerMatch l <;> simp [hin, hm, h]

/-- The whole scan never removes an emitted function symbol. -/
theorem foldl_fnStep_decls_mono (ls : List String) (s : FnScanAcc) (d : FunctionSymbol)
    (h : d ∈ s.functionDeclarations) :
    d ∈ (List.foldl fnStep s ls).functionDeclarations := by
  induction ls generalizing s with
  | nil => exact h
  | cons a t ih => exact ih _ (fnStep_decls_mono s a d h)

/-- A line that does not trim to END FN emits nothing. -/
theorem fnStep_decls_of_not_end (s : FnScanAcc) (l : String)
    (h : jsTrim l ≠ "END FN") :
    (fnStep s l).functionDeclarations = s.functionDeclarations := by
  unfold fnStep
  by_cases hin : s.isInFunction = true
  · simp [hin, h]
  · rw [Bool.not_eq_true] at hin
    cases hm : headerMatch l <;> simp [hin, hm]

/-- A run of lines none of which trims to END FN emits nothing: in particular
reaching the end of the document inside a function emits no symbol for it. -/
theorem foldl_fnStep_decls_of_not_end (ls : List String)
    (h : ∀ l ∈ ls, jsTrim l ≠ "END FN") (s : FnScanAcc) :
    (List.foldl fnStep s ls).functionDeclarations = s.functionDeclarations := by
  induction ls generalizing s with
  | nil => rfl
  | cons a t ih =>
    rw [List.foldl_cons, ih (fun l hl => h l (List.mem_cons_of_mem a hl)),
      fnStep_decls_of_not_end s a (h a (List.mem_cons_self a t))]

/-- An ordered alternation only ever yields one of its alternatives. -/
theorem tryAlts_mem {alts : List String} {cs : List Char} {ty : String}
    {r : List Char} (h : tryAlts alts cs = some (ty, r)) : ty ∈ alts := by
  induction alts with
  | nil => simp [tryAlts] at h
  | cons a rest ih =>
    unfold tryAlts at h
    cases hm : matchExact a.data cs <;> rw [hm] at h
    · exact List.mem_cons_of_mem a (ih h)
    · simp at h
      simp [h.1.symm]

/-- A variable match carries one of the four variable types. -/
theorem tryVarAt_type_mem {cs : List Char} {ty name : String}
    {after consumed : List Char}
    (h : tryVarAt cs = some (ty, name, after, consumed)) :
    ty ∈ (["STRING", "INT", "FLOAT", "CHAR"] : List String) := by
  unfold tryVarAt at h
  cases hv : tryVarType cs <;> rw [hv] at h
  · simp at h
  · rename_i val
    obtain ⟨ty0, r1⟩ := val
    have hty0 : ty0 ∈ (["STRING", "INT", "FLOAT", "CHAR"] : List String) :=
      tryAlts_mem hv
    dsimp only at h
    by_cases hw : (List.takeWhile isJsSpace r1).length = 0
    · rw [if_pos hw] at h
      simp at h
    · rw [if_neg hw] at h
      cases hid : takeIdent (List.dropWhile isJsSpace r1) <;> rw [hid] at h
      · simp at h
      · rename_i idval
        obtain ⟨nm, r2⟩ := idval
        simp at h
        exact h.1 ▸ hty0

/-- Every pair the variable scan yields carries one of the four variable
types. -/
theorem varScanFuel_type_mem (fuel : Nat) (seenRev cs : List Char)
    (p : String × String) (hp : p ∈ varScanFuel fuel seenRev cs) :
    p.2 ∈ (["STRING", "INT", "FLOAT", "CHAR"] : List String) := by
  induction fuel generalizing seenRev cs with
  | zero => simp [varScanFuel] at hp
  | succ n ih =>
    cases cs with
    | nil => simp [varScanFuel] at hp
    | cons c rest =>
      unfold varScanFuel at hp
      by_cases hlb : fnLookbehind seenRev
      · rw [if_pos hlb] at hp
        exact ih _ _ hp
      · rw [if_neg hlb] at hp
        cases htry : tryVarAt (c :: rest) <;> rw [htry] at hp
        · exact ih _ _ hp
        · rename_i q
          obtain ⟨ty, name, after, consumed⟩ := q
          rcases List.mem_cons.mp hp with h1 | h2
          · subst h1
            exact tryVarAt_type_mem htry
          · exact ih _ _ h2

/-- Every symbol on one line carries one of the four variable types. -/
theorem lineVars_type_mem {line : String} {v : VariableSymbol}
    (h : v ∈ lineVars line) :
    v.containerName ∈ (["STRING", "INT", "FLOAT", "CHAR"] : List String) := by
  unfold lineVars at h
  obtain ⟨p, hp, hv⟩ := List.mem_map.mp h
  have := varScanFuel_type_mem _ _ _ p hp
  rw [← hv]
  exact this

/-- Membership in a fold that appends per-line results comes from the initial
accumulator or from one of the lines. -/
theorem mem_foldl_append {α : Type} (g : String → List α) (ls : List String)
    (init : List α) (v : α)
    (h : v ∈ ls.foldl (fun acc line => acc ++ g line) init) :
    v ∈ init ∨ ∃ l ∈ ls, v ∈ g l := by
  induction ls generalizing init with
  | nil => exact Or.inl h
  | cons a t ih =>
    rcases ih _ h with h1 | ⟨l, hl, hv⟩
    · rcases List.mem_append.mp h1 with h2 | h3
      · exact Or.inl h2
      · exact Or.inr ⟨a, List.mem_cons_self a t, h3⟩
    · exact Or.inr ⟨l, List.mem_cons_of_mem a hl, hv⟩

/-- Every extracted variable symbol carries one of the four variable types;
BOOL never appears. -/
theorem extractVariableDeclarations_type (text : String) (v : VariableSymbol)
    (h : v ∈ extractVariableDeclarations text) :
    v.containerName ∈ (["STRING", "INT", "FLOAT", "CHAR"] : List String) := by
  unfold extractVariableDeclarations at h
  rcases mem_foldl_append lineVars _ _ _ h with h1 | ⟨l, _, hv⟩
  · simp at h1
  · exact lineVars_type_mem hv

/-- The validator loop returns its accumulator unchanged: no iteration appends
the diagnostic it builds. -/
theorem validateLoop_fixed (uri : String) (hri : Bool) (maxP : Nat)
    (text : String) (ms : List (Nat × String)) (problems : Nat)
    (ds : List Diagnostic) :
    validateLoop uri hri maxP text ms problems ds = ds := by
  induction ms generalizing problems with
  | nil => rfl
  | cons m rest ih =>
    unfold validateLoop
    by_cases h : problems < maxP <;> simp [h, ih]

/-- The validator returns the empty list on every input. -/
theorem validateTextDocument_empty (uri : String) (hri : Bool) (maxP : Nat)
    (text : String) : validateTextDocument uri hri maxP text = [] :=
  validateLoop_fixed uri hri maxP text (allCapsMatches text) 0 []

/-! Claim theorems. -/

/-- C1: the claim says that for text "ABC def GHI" with maxNumberOfProblems 1
the validator returns exactly one Warning diagnostic covering "ABC" with
message "ABC is all uppercase.", and in general min(k, m) diagnostics.  The
code scans both matches and constructs exactly the claimed diagnostic for
"ABC", but the diagnostics array is never appended to — the loop lacks the
push — so the function returns the empty list on this input, contradicting the
claim and the code's own comment that the validator creates diagnostics for
all-uppercase words. -/
theorem claim_C1_diagnostics_never_returned :
    allCapsMatches "ABC def GHI" = [(0, "ABC"), (8, "GHI")] ∧
    constructedDiagnostics "file:///doc" true 1 "ABC def GHI" =
      [{ severity := DiagnosticSeverity.Warning
         range := ⟨⟨0, 0⟩, ⟨0, 3⟩⟩
         message := "ABC is all uppercase."
         source := "ex"
         relatedInformation := some
           [⟨⟨"file:///doc", ⟨⟨0, 0⟩, ⟨0, 3⟩⟩⟩, "Spelling matters"⟩,
            ⟨⟨"file:///doc", ⟨⟨0, 0⟩, ⟨0, 3⟩⟩⟩, "Particularly for names"⟩] }] ∧
    validateTextDocument "file:///doc" true 1 "ABC def GHI" = [] :=
  ⟨by decide, by decide, validateTextDocument_empty "file:///doc" true 1 "ABC def GHI"⟩

/-- C2 counterexample: the claim says the document text
"FN STRING greet(name: STRING) END FN" yields exactly one FunctionSymbol with
name "greet" and params ["name", "STRING name"].  On that single-line text the
terminator END FN is part of the header line, so the scanner never closes the
function and yields no symbol at all. -/
theorem claim_C2_counterexample :
    extractFunctionDeclarations "FN STRING greet(name: STRING) END FN" ≠
      [{ name := "greet", params := ["name", "STRING name"] }] ∧
    extractFunctionDeclarations "FN STRING greet(name: STRING) END FN" = [] := by
  constructor
  · decide
  · decide

/-- C2 amended: the single-line text "FN STRING greet(name: STRING) END FN"
yields no FunctionSymbol, because a terminator is only recognized on a line of
its own after the header line.  With END FN on its own line the text yields
exactly one FunctionSymbol named "greet" whose params are the header
comma-split token ["name: STRING"]; the claimed list ["name", "STRING name"]
arises from the header+body accumulation rule only when the typed parameter
stands on a body line, as in "FN STRING greet(name)" / "name: STRING" /
"END FN". -/
theorem claim_C2_amended :
    extractFunctionDeclarations "FN STRING greet(name: STRING) END FN" = [] ∧
    extractFunctionDeclarations "FN STRING greet(name: STRING)\nEND FN" =
      [{ name := "greet", params := ["name: STRING"] }] ∧
    extractFunctionDeclarations "FN STRING greet(name)\nname: STRING\nEND FN" =
      [{ name := "greet", params := ["name", "STRING name"] }] := by
  refine ⟨by decide, by decide, by decide⟩

/-- C3: a document whose lines decompose into header-free lines, a line
matching the function header pattern with captured name NAME, body lines none
of which trims to END FN, a line trimming to exactly END FN, and arbitrary
following lines, makes the scanner emit exactly one FunctionSymbol named NAME
with the reset to the Outside state at the END FN line, and the completion
list contains a Function-kind item labelled NAME. -/
theorem claim_C3_single_block (text NAME ps header endL : String)
    (pre body post : List String)
    (hsplit : splitLines text = pre ++ header :: (body ++ endL :: post))
    (hpre : ∀ l ∈ pre, headerMatch l = none)
    (hheader : headerMatch header = some (NAME, ps))
    (hbody : ∀ l ∈ body, jsTrim l ≠ "END FN")
    (hend : jsTrim endL = "END FN") :
    ∃ params,
      List.foldl fnStep ⟨[], "", [], false⟩ (pre ++ header :: (body ++ [endL])) =
        ⟨[⟨NAME, params⟩], "", [], false⟩ ∧
      (⟨NAME, params⟩ : FunctionSymbol) ∈ extractFunctionDeclarations text ∧
      (⟨NAME, CompletionItemKind.Function, none⟩ : CompletionItem) ∈
        computeCompletions text := by
  have h1 : List.foldl fnStep ⟨[], "", [], false⟩ pre = ⟨[], "", [], false⟩ :=
    foldl_fnStep_outside pre hpre [] "" []
  have hstep : fnStep ⟨[], "", [], false⟩ header =
      ⟨[], NAME, commaSplitTrim ps, true⟩ := by
    simp [fnStep, hheader]
  obtain ⟨extra, hex⟩ := foldl_fnStep_inside body hbody [] NAME (commaSplitTrim ps)
  have hendstep : fnStep ⟨[], NAME, commaSplitTrim ps ++ extra, true⟩ endL =
      ⟨[⟨NAME, commaSplitTrim ps ++ extra⟩], "", [], false⟩ := by
    simp [fnStep, hend]
  have hrun : List.foldl fnStep ⟨[], "", [], false⟩ (pre ++ header :: (body ++ [endL])) =
      ⟨[⟨NAME, commaSplitTrim ps ++ extra⟩], "", [], false⟩ := by
    rw [List.foldl_append, h1, List.foldl_cons, hstep, List.foldl_append, hex]
    simpa using hendstep
  have hdecomp : splitLines text = (pre ++ header :: (body ++ [endL])) ++ post := by
    rw [hsplit]
    simp
  have hmem : (⟨NAME, commaSplitTrim ps ++ extra⟩ : FunctionSymbol) ∈
      extractFunctionDeclarations text := by
    unfold extractFunctionDeclarations
    rw [hdecomp, List.foldl_append, hrun]
    exact foldl_fnStep_decls_mono post _ _ (List.mem_singleton.mpr rfl)
  refine ⟨commaSplitTrim ps ++ extra, hrun, hmem, ?_⟩
  rw [computeCompletions_eq]
  refine List.mem_append.mpr (Or.inr ?_)
  exact List.mem_map.mpr ⟨⟨NAME, commaSplitTrim ps ++ extra⟩, hmem, rfl⟩

/-- C3 witness: the two-line document "FN foo(a)" / "END FN" instantiates the
claim with empty pre, body and post. -/
theorem claim_C3_witness :
    ∃ params,
      List.foldl fnStep ⟨[], "", [], false⟩
          ([] ++ "FN foo(a)" :: ([] ++ ["END FN"])) =
        ⟨[⟨"foo", params⟩], "", [], false⟩ ∧
      (⟨"foo", params⟩ : FunctionSymbol) ∈
        extractFunctionDeclarations "FN foo(a)\nEND FN" ∧
      (⟨"foo", CompletionItemKind.Function, none⟩ : CompletionItem) ∈
        computeCompletions "FN foo(a)\nEND FN" :=
  claim_C3_single_block "FN foo(a)\nEND FN" "foo" "a" "FN foo(a)" "END FN"
    [] [] [] (by decide) (by simp) (by decide) (by simp) (by decide)

/-- C4: the two-line text "FN foo(a)" / " INT x" without END FN yields no
FunctionSymbol and exactly the variable x of type INT; in general a run of
lines none of which trims to END FN emits no function symbol, so reaching the
end of the document inside a function drops the open function silently. -/
theorem claim_C4_unterminated_dropped :
    extractFunctionDeclarations "FN foo(a)\n INT x" = [] ∧
    extractVariableDeclarations "FN foo(a)\n INT x" =
      [{ name := "x", containerName := "INT" }] ∧
    (∀ (ls : List String) (s : FnScanAcc),
      (∀ l ∈ ls, jsTrim l ≠ "END FN") →
      (List.foldl fnStep s ls).functionDeclarations = s.functionDeclarations) :=
  ⟨by decide, by decide, fun ls s h => foldl_fnStep_decls_of_not_end ls h s⟩

/-- C4 witness: the general part applied to the concrete two lines of the
claim from the initial Outside state. -/
theorem claim_C4_witness :
    (List.foldl fnStep ⟨[], "", [], false⟩
        ["FN foo(a)", " INT x"]).functionDeclarations = [] :=
  claim_C4_unterminated_dropped.2.2 ["FN foo(a)", " INT x"] ⟨[], "", [], false⟩
    (by decide)

/-- C5: every extracted variable carries a type among STRING, INT, FLOAT and
CHAR — never BOOL — and the negative lookbehind suppresses a match right after
FN plus whitespace: "FN INT getX() END FN" followed by "INT y" reports only y
of type INT, and "BOOL b" reports nothing. -/
theorem claim_C5_variable_types :
    (∀ (text : String) (v : VariableSymbol),
      v ∈ extractVariableDeclarations text →
      v.containerName ∈ (["STRING", "INT", "FLOAT", "CHAR"] : List String)) ∧
    extractVariableDeclarations "BOOL b" = [] ∧
    extractVariableDeclarations "FN INT getX() END FN\nINT y" =
      [{ name := "y", containerName := "INT" }] :=
  ⟨extractVariableDeclarations_type, by decide, by decide⟩

/-- C5 witness: the general part applied to the one variable extracted from
"INT y". -/
theorem claim_C5_witness :
    (⟨"y", "INT"⟩ : VariableSymbol).containerName ∈
      (["STRING", "INT", "FLOAT", "CHAR"] : List String) :=
  claim_C5_variable_types.1 "INT y" ⟨"y", "INT"⟩ (by decide)

/-- C6: the claim says a returned diagnostic carries the two advisory notes at
its own range exactly when the client declared the related-information
capability.  The loop indeed constructs every diagnostic that way — with the
capability the two notes "Spelling matters" and "Particularly for names" at
the diagnostic's own range, without it no related information — but the
function returns the empty list on every input because the constructed
diagnostics are never appended, so no returned diagnostic ever carries them. -/
theorem claim_C6_related_info_constructed_not_returned :
    (∀ (uri : String) (maxP : Nat) (text : String) (d : Diagnostic),
      d ∈ constructedDiagnostics uri true maxP text →
      d.relatedInformation =
        some [⟨⟨uri, d.range⟩, "Spelling matters"⟩,
              ⟨⟨uri, d.range⟩, "Particularly for names"⟩]) ∧
    (∀ (uri : String) (maxP : Nat) (text : String) (d : Diagnostic),
      d ∈ constructedDiagnostics uri false maxP text →
      d.relatedInformation = none) ∧
    (∀ (uri : String) (hri : Bool) (maxP : Nat) (text : String),
      validateTextDocument uri hri maxP text = []) := by
  refine ⟨?_, ?_, fun uri hri maxP text => validateTextDocument_empty uri hri maxP text⟩
  · intro uri maxP text d hd
    obtain ⟨m, _, rfl⟩ := List.mem_map.mp hd
    simp [mkDiagnostic]
  · intro uri maxP text d hd
    obtain ⟨m, _, rfl⟩ := List.mem_map.mp hd
    simp [mkDiagnostic]

/-- C6 witness: with the capability, the diagnostic constructed for the match
"AB" in "AB cd" carries exactly the two notes, yet the validator returns
nothing. -/
theorem claim_C6_witness :
    (mkDiagnostic "file:///doc" true "AB cd" (0, "AB")).relatedInformation =
      some [⟨⟨"file:///doc", (mkDiagnostic "file:///doc" true "AB cd" (0, "AB")).range⟩,
              "Spelling matters"⟩,
            ⟨⟨"file:///doc", (mkDiagnostic "file:///doc" true "AB cd" (0, "AB")).range⟩,
              "Particularly for names"⟩] ∧
    validateTextDocument "file:///doc" true 1000 "AB cd" = [] :=
  ⟨claim_C6_related_info_constructed_not_returned.1 "file:///doc" 1000 "AB cd"
      (mkDiagnostic "file:///doc" true "AB cd" (0, "AB")) (by decide),
    claim_C6_related_info_constructed_not_returned.2.2 "file:///doc" true 1000 "AB cd"⟩

/-- C7: for every document text the completion handler returns, without any
filtering, the fixed keyword and builtin items in source order, then one
Variable item per extracted variable with its type as detail in extraction
order, then one Function item per extracted function in extraction order. -/
theorem claim_C7_completion_composition (text : String) :
    computeCompletions text =
      [ ⟨"BEGIN", CompletionItemKind.Keyword, none⟩,
        ⟨"END", CompletionItemKind.Keyword, none⟩,
        ⟨"IF", CompletionItemKind.Keyword, none⟩,
        ⟨"ELSE", CompletionItemKind.Keyword, none⟩,
        ⟨"WHILE", CompletionItemKind.Keyword, none⟩,
        ⟨"FN", CompletionItemKind.Keyword, none⟩,
        ⟨"STRING", CompletionItemKind.Keyword, none⟩,
        ⟨"CHAR", CompletionItemKind.Keyword, none⟩,
        ⟨"INT", CompletionItemKind.Keyword, none⟩,
        ⟨"FLOAT", CompletionItemKind.Keyword, none⟩,
        ⟨"BOOL", CompletionItemKind.Keyword, none⟩,
        ⟨"\"TRUE\"", CompletionItemKind.Keyword, none⟩,
        ⟨"\"FALSE\"", CompletionItemKind.Keyword, none⟩,
        ⟨"RETURN", CompletionItemKind.Keyword, none⟩,
        ⟨"scanString", CompletionItemKind.Function, none⟩ ]
        ++ (extractVariableDeclarations text).map
            (fun v => ⟨v.name, CompletionItemKind.Variable, some v.containerName⟩)
        ++ (extractFunctionDeclarations text).map
            (fun f => ⟨f.name, CompletionItemKind.Function, none⟩) :=
  computeCompletions_eq text

/-- C8: with the settings resolving to the same value, a second validation of
the same text returns the same diagnostics and leaves the settings cache entry
as the first call left it, and a second completion computation of the same
text returns the same items: no hidden state mutation affects a repeated
call. -/
theorem claim_C8_idempotent (uri : String) (hasConfigCap hasRelatedInfo : Bool)
    (globalSettings workspaceConfig : ExampleSettings)
    (cache : Option ExampleSettings) (text : String) :
    (validateDocumentWithCache uri hasConfigCap hasRelatedInfo globalSettings
        workspaceConfig
        ((validateDocumentWithCache uri hasConfigCap hasRelatedInfo globalSettings
          workspaceConfig cache text).2) text).1 =
      (validateDocumentWithCache uri hasConfigCap hasRelatedInfo globalSettings
        workspaceConfig cache text).1 ∧
    (validateDocumentWithCache uri hasConfigCap hasRelatedInfo globalSettings
        workspaceConfig
        ((validateDocumentWithCache uri hasConfigCap hasRelatedInfo globalSettings
          workspaceConfig cache text).2) text).2 =
      (validateDocumentWithCache uri hasConfigCap hasRelatedInfo globalSettings
        workspaceConfig cache text).2 ∧
    computeCompletions text = computeCompletions text := by
  refine ⟨?_, ?_, rfl⟩ <;>
    cases hasConfigCap <;> cases cache <;>
      simp [validateDocumentWithCache, getDocumentSettings]

/-- C9: a diagnostics pull for a URI absent from the document store returns a
full report with no items instead of failing, and every pull — known or
unknown document — returns a full report; the embedded handlers are total
functions over arbitrary text. -/
theorem claim_C9_unknown_document :
    (∀ (store : List (String × String)) (uri : String) (hcc hri : Bool)
        (gs wc : ExampleSettings) (cache : Option ExampleSettings),
      documentsGet store uri = none →
      onDiagnostics store uri hcc hri gs wc cache =
        ⟨DocumentDiagnosticReportKind.Full, []⟩) ∧
    (∀ (store : List (String × String)) (uri : String) (hcc hri : Bool)
        (gs wc : ExampleSettings) (cache : Option ExampleSettings),
      (onDiagnostics store uri hcc hri gs wc cache).kind =
        DocumentDiagnosticReportKind.Full) := by
  constructor
  · intro store uri hcc hri gs wc cache h
    simp [onDiagnostics, h]
  · intro store uri hcc hri gs wc cache
    unfold onDiagnostics
    cases documentsGet store uri <;> rfl

/-- C9 witness: the empty store knows no document, and the pull for a missing
URI returns the empty full report. -/
theorem claim_C9_witness :
    onDiagnostics [] "file:///missing" true true ⟨1000⟩ ⟨1000⟩ none =
      ⟨DocumentDiagnosticReportKind.Full, []⟩ :=
  claim_C9_unknown_document.1 [] "file:///missing" true true ⟨1000⟩ ⟨1000⟩ none rfl

/-- C10: an empty parenthesized parameter list still yields a one-element
parameter list containing the empty string, because the captured header
parameter text is split on commas even when empty: splitting the empty string
gives one empty field, and trimming keeps it empty. -/
theorem claim_C10_empty_parens :
    commaSplitTrim "" = [""] ∧
    extractFunctionDeclarations "FN foo()\nEND FN" =
      [{ name := "foo", params := [""] }] ∧
    extractFunctionDeclarations "FN INT bar( )\nEND FN" =
      [{ name := "bar", params := [""] }] := by
  refine ⟨by decide, by decide, by decide⟩

end Codelang
